import Mathlib

/-!
# Verification of the SNES RAG pipeline (`tools/neo4j_rag.py`, `tools/mcp_client.py`)

A shallow embedding of the knowledge-retrieval / context-assembly core of the
repository.  Text is modelled as `List Char` (Python `str`), record dictionaries
as structures, the Neo4j store as a `Store` value holding the underlying data
together with per-family failure flags (a set flag models the corresponding
`session.run` raising, which the Python code does not catch), and fallible
Python functions as `Except Unit`-valued functions.

Python iterates a `set` in hash order, which is not determined by the set's
contents across interpreter processes (string-hash randomisation).  Wherever
the source iterates a set (`extract_keywords` results, `list(set(...))` in the
detectors) the embedding uses a list in first-occurrence order and, where a
claim depends on the iteration order, the order is quantified explicitly.
-/

/-- Convert a string literal to the `List Char` text model. -/
def s2l (s : String) : List Char := s.data

/-- Python `str.lower` (ASCII-relevant part, as used on the repository's data). -/
def toLowerL (t : List Char) : List Char := t.map Char.toLower

/-- Python `str.upper`. -/
def toUpperL (t : List Char) : List Char := t.map Char.toUpper

/-- Helper for `dedupF`: skip elements already seen. -/
def dedupFAux {α} [DecidableEq α] (seen : List α) : List α → List α
  | [] => []
  | x :: xs => if x ∈ seen then dedupFAux seen xs else x :: dedupFAux (x :: seen) xs

/-- First-occurrence deduplication; models Python's `set` of collected results
(`set` iteration order itself is hash-dependent, see module docstring). -/
def dedupF {α} [DecidableEq α] (l : List α) : List α := dedupFAux [] l

/-- Python `sep.join(parts)`. -/
def strJoin (sep : List Char) : List (List Char) → List Char
  | [] => []
  | [x] => x
  | x :: y :: rest => x ++ sep ++ strJoin sep (y :: rest)

/-- Python `"\n".join(parts)` as used in `build_context`. -/
def joinNL : List (List Char) → List Char := strJoin ['\n']

/-- Decimal rendering of a number, as Python string interpolation does. -/
def natStr (n : Nat) : List Char := (Nat.repr n).data

/-- Python `text.find(kw)`: index of the first occurrence of `kw` in `text`
(meaningful when `kw` occurs; `0` returned on the empty tail otherwise). -/
def firstIdx (kw : List Char) : List Char → Nat
  | [] => 0
  | c :: rest => if kw <+: (c :: rest) then 0 else firstIdx kw rest + 1

/-! ## `SNESRAGPipeline.extract_keywords` (`tools/neo4j_rag.py:62-118`) -/

/-- Known mod names (`neo4j_rag.py:70-77`). -/
def mod_keywords : List (List Char) :=
  [s2l "infinite-magic", s2l "infinite magic", s2l "magic",
   s2l "2x-speed", s2l "2x speed", s2l "double speed", s2l "speed",
   s2l "max-hearts", s2l "max hearts", s2l "health", s2l "hearts",
   s2l "intro-skip", s2l "intro skip",
   s2l "quick-start", s2l "quick start",
   s2l "team-solution", s2l "ultimate"]

/-- SNES hardware terms (`neo4j_rag.py:80-85`). -/
def hardware_keywords : List (List Char) :=
  [s2l "ppu", s2l "cpu", s2l "dma", s2l "hdma", s2l "apu", s2l "spc700",
   s2l "register", s2l "registers", s2l "$2100", s2l "$4200",
   s2l "vblank", s2l "hblank", s2l "sprite", s2l "oam",
   s2l "bgmode", s2l "background", s2l "tilemap"]

/-- Component names (`neo4j_rag.py:88-92`). -/
def component_keywords : List (List Char) :=
  [s2l "player", s2l "sprite", s2l "ancilla", s2l "dungeon",
   s2l "overworld", s2l "hud", s2l "audio", s2l "music",
   s2l "ending", s2l "attract", s2l "menu"]

/-- Project names (`neo4j_rag.py:95-99`). -/
def project_keywords : List (List Char) :=
  [s2l "zelda3", s2l "zelda 3", s2l "link to the past", s2l "alttp",
   s2l "bsnes", s2l "snes9x", s2l "emulator",
   s2l "disassembly", s2l "decompilation"]

/-- Memory terms (`neo4j_rag.py:102-105`). -/
def memory_keywords : List (List Char) :=
  [s2l "wram", s2l "sram", s2l "rom", s2l "memory", s2l "bank",
   s2l "address", s2l "pointer"]

/-- The concatenated vocabulary (`neo4j_rag.py:108-111`). -/
def all_keywords : List (List Char) :=
  mod_keywords ++ hardware_keywords ++ component_keywords ++
  project_keywords ++ memory_keywords

/-- `keyword.replace(" ", "-").replace("$", "")` (`neo4j_rag.py:116`);
for these single-character patterns Python's replace is a char map / filter. -/
def normalize_keyword (kw : List Char) : List Char :=
  (kw.map (fun c => if c = ' ' then '-' else c)).filter (fun c => c ≠ '$')

/-- `SNESRAGPipeline.extract_keywords`: case-insensitive substring containment
against the fixed vocabulary, normalised; the Python `set` is modelled as a
first-occurrence-deduplicated list in vocabulary scan order. -/
def extract_keywords (text : List Char) : List (List Char) :=
  let text_lower := toLowerL text
  dedupF ((all_keywords.filter (fun kw => kw <:+: text_lower)).map normalize_keyword)

example : extract_keywords (s2l "How do I modify the magic system?") = [s2l "magic"] := by decide
example : extract_keywords (s2l "hello world") = [] := by decide
example : extract_keywords (s2l "$2100") = [s2l "2100"] := by decide

/-! ## Data model (record shapes returned by the Cypher queries, `neo4j_rag.py:120-239`) -/

/-- A `Mod` record: `name, description, type, bytes (affected_bytes), components`. -/
structure ModRec where
  name : List Char
  description : List Char
  type : List Char
  bytes : Nat
  components : List (List Char)
deriving DecidableEq

/-- A `Register` record: `address, name, description, category`. -/
structure RegisterRec where
  address : List Char
  name : List Char
  description : List Char
  category : List Char
deriving DecidableEq

/-- A `Component` record: `name, type, description, file`. -/
structure ComponentRec where
  name : List Char
  type : List Char
  description : List Char
  file : List Char
deriving DecidableEq

/-- A `Knowledge` record: `topic, content, type, tags`. -/
structure KnowledgeRec where
  topic : List Char
  content : List Char
  type : List Char
  tags : List (List Char)
deriving DecidableEq

/-- A retrieved item tagged with its `_type` family (`neo4j_rag.py:429-447`). -/
inductive Candidate where
  | mod : ModRec → Candidate
  | register : RegisterRec → Candidate
  | component : ComponentRec → Candidate
  | knowledge : KnowledgeRec → Candidate
deriving DecidableEq

/-- The Neo4j store as seen by the pipeline: `available` models
`self.driver is not None`; the four `*Fail` flags model the corresponding
`session.run` raising a `Neo4jError` (which `neo4j_rag.py` does not catch);
the data lists hold the graph's records in the store's natural return order. -/
structure Store where
  available : Bool
  mods : List ModRec
  registers : List RegisterRec
  components : List ComponentRec
  knowledge : List KnowledgeRec
  modsFail : Bool
  registersFail : Bool
  componentsFail : Bool
  knowledgeFail : Bool
deriving DecidableEq

/-! ## Candidate retrieval (`neo4j_rag.py:120-239`) -/

/-- The `mod_types` filter inferred from the keywords (`neo4j_rag.py:127-133`). -/
def mod_types (keywords : List (List Char)) : List (List Char) :=
  (if [s2l "magic", s2l "infinite-magic"].any (fun k => k ∈ keywords)
   then [s2l "magic"] else []) ++
  (if [s2l "speed", s2l "2x-speed", s2l "double-speed"].any (fun k => k ∈ keywords)
   then [s2l "speed"] else []) ++
  (if [s2l "health", s2l "hearts", s2l "max-hearts"].any (fun k => k ∈ keywords)
   then [s2l "health"] else [])

/-- `SNESRAGPipeline.get_relevant_mods` (`neo4j_rag.py:120-154`): no driver
gives `[]`; a query failure raises; the filtered Cypher query has no `LIMIT`,
the fallback query has `LIMIT 3`. -/
def get_relevant_mods (keywords : List (List Char)) (s : Store) :
    Except Unit (List ModRec) :=
  if ¬ s.available then .ok []
  else if s.modsFail then .error ()
  else
    let types := mod_types keywords
    if types ≠ [] then .ok (s.mods.filter (fun m => m.type ∈ types))
    else .ok (s.mods.take 3)

/-- The register `category` inferred from the keywords (`neo4j_rag.py:163-169`). -/
def register_category (keywords : List (List Char)) : Option (List Char) :=
  if [s2l "ppu", s2l "sprite", s2l "background", s2l "bgmode"].any (fun k => k ∈ keywords)
  then some (s2l "ppu")
  else if [s2l "cpu", s2l "interrupt", s2l "nmi", s2l "irq"].any (fun k => k ∈ keywords)
  then some (s2l "cpu")
  else if [s2l "dma", s2l "hdma"].any (fun k => k ∈ keywords)
  then some (s2l "dma")
  else none

/-- Lexicographic `≤` on text by character code, modelling Neo4j's
`ORDER BY` on string properties. -/
def lexLe : List Char → List Char → Bool
  | [], _ => true
  | _ :: _, [] => false
  | a :: as, b :: bs => if a = b then lexLe as bs else Nat.blt a.toNat b.toNat

/-- Stable insertion of `x` into `l`: `x` goes before the first element `y`
with `le x y`. -/
def insertBy {α} (le : α → α → Bool) (x : α) : List α → List α
  | [] => [x]
  | y :: ys => if le x y then x :: y :: ys else y :: insertBy le x ys

/-- Stable insertion sort with respect to `le`. -/
def sortBy {α} (le : α → α → Bool) : List α → List α
  | [] => []
  | x :: xs => insertBy le x (sortBy le xs)

/-- `ORDER BY r.address` on register records. -/
def sortByAddress (l : List RegisterRec) : List RegisterRec :=
  sortBy (fun a b => lexLe a.address b.address) l

/-- `SNESRAGPipeline.get_relevant_registers` (`neo4j_rag.py:156-188`): both the
category-filtered query and the fallback query are `ORDER BY r.address LIMIT 5`. -/
def get_relevant_registers (keywords : List (List Char)) (s : Store) :
    Except Unit (List RegisterRec) :=
  if ¬ s.available then .ok []
  else if s.registersFail then .error ()
  else
    match register_category keywords with
    | some c => .ok ((sortByAddress (s.registers.filter (fun r => r.category = c))).take 5)
    | none => .ok ((sortByAddress s.registers).take 5)

/-- The `component_names` filter inferred from the keywords (`neo4j_rag.py:197-203`). -/
def component_names (keywords : List (List Char)) : List (List Char) :=
  (if s2l "player" ∈ keywords then [s2l "player"] else []) ++
  (if [s2l "sprite", s2l "sprite_system"].any (fun k => k ∈ keywords)
   then [s2l "sprite_system"] else []) ++
  (if [s2l "dungeon", s2l "dungeon_system"].any (fun k => k ∈ keywords)
   then [s2l "dungeon_system"] else [])

/-- `SNESRAGPipeline.get_relevant_components` (`neo4j_rag.py:190-220`): the
name-filtered query has no `LIMIT`, the fallback has `LIMIT 3`. -/
def get_relevant_components (keywords : List (List Char)) (s : Store) :
    Except Unit (List ComponentRec) :=
  if ¬ s.available then .ok []
  else if s.componentsFail then .error ()
  else
    let names := component_names keywords
    if names ≠ [] then .ok (s.components.filter (fun c => c.name ∈ names))
    else .ok (s.components.take 3)

/-- `SNESRAGPipeline.get_relevant_knowledge` (`neo4j_rag.py:222-239`): tag
intersection or literal topic/content containment, `LIMIT 3`. -/
def get_relevant_knowledge (keywords : List (List Char)) (s : Store) :
    Except Unit (List KnowledgeRec) :=
  if ¬ s.available then .ok []
  else if s.knowledgeFail then .error ()
  else
    .ok ((s.knowledge.filter (fun k =>
      k.tags.any (fun tag => tag ∈ keywords) ∨
      keywords.any (fun kw => kw <:+: k.topic ∨ kw <:+: k.content))).take 3)

/-! ## Relevance scoring (`SNESRAGPipeline.calculate_relevance_score`,
`neo4j_rag.py:331-380`) -/

/-- The "searchable text" of an item: its `name`, `description`, `topic` and
`content` dictionary entries, in that key order, each lowercased and followed
by a space (`neo4j_rag.py:345-353`). -/
def searchable_text : Candidate → List Char
  | .mod m => toLowerL m.name ++ [' '] ++ toLowerL m.description ++ [' ']
  | .register r => toLowerL r.name ++ [' '] ++ toLowerL r.description ++ [' ']
  | .component c => toLowerL c.name ++ [' '] ++ toLowerL c.description ++ [' ']
  | .knowledge k => toLowerL k.topic ++ [' '] ++ toLowerL k.content ++ [' ']

/-- Factor 3 of the score (`neo4j_rag.py:363-372`): scan the keywords in
iteration order; the first keyword found in the text at index < 100 wins
(+3 below index 50, else +2) and stops the scan; keywords found at
index ≥ 100, or not found, are skipped. -/
def position_bonus (text : List Char) : List (List Char) → Nat
  | [] => 0
  | kw :: rest =>
    if kw <:+: text then
      if firstIdx kw text < 50 then 3
      else if firstIdx kw text < 100 then 2
      else position_bonus text rest
    else position_bonus text rest

/-- `SNESRAGPipeline.calculate_relevance_score`.  The Python float score only
ever takes small non-negative integer values, so it is modelled as `Nat`.
The `keywords` list stands for the Python keyword set in iteration order. -/
def calculate_relevance_score (item : Candidate) (query : List Char)
    (keywords : List (List Char)) : Nat :=
  let query_lower := toLowerL query
  let text := searchable_text item
  let match_count := keywords.countP (fun kw => kw <:+: text)
  min (match_count * 2) 10
  + (if query_lower <:+: text then 5 else 0)
  + position_bonus text keywords
  + (if 100 < text.length then 2 else if 50 < text.length then 1 else 0)

/-! ## Reranking (`SNESRAGPipeline.rerank_results`, `neo4j_rag.py:382-398`) -/

/-- Stable descending comparison on score: `x` is inserted before the first
element whose score is `≤` its own, exactly the tie behaviour of Python's
stable `sort(key=..., reverse=True)`. -/
def scoreDescLe (a b : Nat × Candidate) : Bool := Nat.ble b.1 a.1

/-- `SNESRAGPipeline.rerank_results`: score every item, keep only positive
scores, stable-sort descending, truncate to `max_items`, drop the scores. -/
def rerank_results (all_items : List Candidate) (query : List Char)
    (keywords : List (List Char)) (max_items : Nat := 10) : List Candidate :=
  let scored_items := (all_items.map
    (fun it => (calculate_relevance_score it query keywords, it))).filter
    (fun p => 0 < p.1)
  ((sortBy scoreDescLe scored_items).take max_items).map Prod.snd

/-! ## MCP enrichment collaborators (`tools/mcp_client.py`) -/

/-- `MCP_AVAILABLE` (`neo4j_rag.py:28-32`): the import of `mcp_client`
succeeds in this repository, so the flag is `true`. -/
def MCP_AVAILABLE : Bool := true

/-- Regex word character (`\w`): letters, digits, underscore. -/
def isWordChar (c : Char) : Bool := c.isAlphanum || c = '_'

/-- `\b` seen from the left: start of string or a non-word character. -/
def boundaryB : Option Char → Bool
  | none => true
  | some c => !isWordChar c

/-- `\b` seen from the right: end of string or a non-word character next. -/
def afterBoundary : List Char → Bool
  | [] => true
  | c :: _ => !isWordChar c

/-- `[0-9A-Fa-f]`. -/
def isHexDigit (c : Char) : Bool :=
  c.isDigit || ('A' ≤ c && c ≤ 'F') || ('a' ≤ c && c ≤ 'f')

/-- Numeric value of a hex digit. -/
def hexDigitVal (c : Char) : Nat :=
  if c.isDigit then c.toNat - '0'.toNat
  else if 'A' ≤ c && c ≤ 'F' then c.toNat - 'A'.toNat + 10
  else if 'a' ≤ c && c ≤ 'f' then c.toNat - 'a'.toNat + 10
  else 0

/-- Python `int(s, 16)` on a hex-digit string. -/
def hexVal (l : List Char) : Nat := l.foldl (fun acc c => acc * 16 + hexDigitVal c) 0

/-- The 65816 mnemonics of the alternation in `neo4j_rag.py:271-280`
(all three characters long). -/
def mnemonics : List (List Char) :=
  [s2l "LDA", s2l "STA", s2l "LDX", s2l "STX", s2l "LDY", s2l "STY",
   s2l "JSR", s2l "JSL", s2l "JMP", s2l "JML",
   s2l "BEQ", s2l "BNE", s2l "BCC", s2l "BCS", s2l "BMI", s2l "BPL",
   s2l "BVC", s2l "BVS", s2l "BRA", s2l "BRL",
   s2l "ADC", s2l "SBC", s2l "AND", s2l "ORA", s2l "EOR", s2l "CMP",
   s2l "CPX", s2l "CPY",
   s2l "INC", s2l "DEC", s2l "INX", s2l "DEX", s2l "INY", s2l "DEY",
   s2l "ASL", s2l "LSR", s2l "ROL", s2l "ROR",
   s2l "PHP", s2l "PLP", s2l "PHA", s2l "PLA", s2l "PHX", s2l "PLX",
   s2l "PHY", s2l "PLY", s2l "PHB", s2l "PLB", s2l "PHD", s2l "PLD", s2l "PHK",
   s2l "RTI", s2l "RTS", s2l "RTL",
   s2l "SEI", s2l "CLI", s2l "SEC", s2l "CLC", s2l "SED", s2l "CLD",
   s2l "SEP", s2l "REP", s2l "XCE",
   s2l "NOP", s2l "WDM", s2l "COP", s2l "BRK", s2l "WAI", s2l "STP",
   s2l "TXA", s2l "TAX", s2l "TYA", s2l "TAY", s2l "TXS", s2l "TSX",
   s2l "TXY", s2l "TYX", s2l "TCD", s2l "TDC", s2l "TCS", s2l "TSC", s2l "XBA"]

/-- `re.findall` of the whole-word mnemonic alternation (`neo4j_rag.py:282`).
The scanner advances one character at a time carrying the previous character;
a fresh match needs a word boundary on the left, so no match can begin inside
a previously matched mnemonic (its characters are word characters), making the
one-character advance equivalent to the regex engine's resume-after-match. -/
def find_mnemonics : Option Char → List Char → List (List Char)
  | _, [] => []
  | prev, c :: rest =>
    match (if boundaryB prev then
             mnemonics.find? (fun m =>
               m.isPrefixOf (c :: rest) && afterBoundary ((c :: rest).drop m.length))
           else none) with
    | some m => m :: find_mnemonics (some c) rest
    | none => find_mnemonics (some c) rest

/-- One simulated instruction-database entry (`mcp_client.py:86-191`). -/
structure InstrInfo where
  mnemonic : List Char
  description : List Char
  modes : List Char
  cycles : List Char
  flags : List Char
  notes : List Char
deriving DecidableEq

/-- The simulated instruction database of `snes_lookup_instruction`
(`mcp_client.py:86-191`). -/
def instruction_table : List (List Char × InstrInfo) :=
  [(s2l "LDA",
    { mnemonic := s2l "LDA", description := s2l "Load Accumulator from Memory",
      modes := s2l "Immediate, Direct Page, Absolute, Indexed X/Y, Indirect, Long",
      cycles := s2l "2-6 depending on mode and memory/accumulator size",
      flags := s2l "N (Negative), Z (Zero)",
      notes := s2l "One of the most commonly used instructions. Loads a value into the accumulator." }),
   (s2l "STA",
    { mnemonic := s2l "STA", description := s2l "Store Accumulator to Memory",
      modes := s2l "Direct Page, Absolute, Indexed X/Y, Indirect, Long",
      cycles := s2l "3-6 depending on mode", flags := s2l "None",
      notes := s2l "Stores the accumulator value to memory. Does not affect any flags." }),
   (s2l "JSR",
    { mnemonic := s2l "JSR", description := s2l "Jump to Subroutine",
      modes := s2l "Absolute, Indexed X", cycles := s2l "6", flags := s2l "None",
      notes := s2l "Pushes return address-1 to stack and jumps to subroutine." }),
   (s2l "JMP",
    { mnemonic := s2l "JMP", description := s2l "Jump to Address",
      modes := s2l "Absolute, Indirect, Indexed Indirect, Absolute Long",
      cycles := s2l "3-6 depending on mode", flags := s2l "None",
      notes := s2l "Unconditional jump. Does not push return address to stack." }),
   (s2l "BEQ",
    { mnemonic := s2l "BEQ", description := s2l "Branch if Equal (Zero flag set)",
      modes := s2l "Relative",
      cycles := s2l "2 (3 if branch taken, +1 if crossing page boundary)",
      flags := s2l "None",
      notes := s2l "Branches if Z flag is set. Range: -128 to +127 bytes." }),
   (s2l "BNE",
    { mnemonic := s2l "BNE", description := s2l "Branch if Not Equal (Zero flag clear)",
      modes := s2l "Relative",
      cycles := s2l "2 (3 if branch taken, +1 if crossing page boundary)",
      flags := s2l "None",
      notes := s2l "Branches if Z flag is clear. Range: -128 to +127 bytes." }),
   (s2l "CMP",
    { mnemonic := s2l "CMP", description := s2l "Compare Accumulator with Memory",
      modes := s2l "Immediate, Direct Page, Absolute, Indexed, Indirect",
      cycles := s2l "2-6 depending on mode",
      flags := s2l "N (Negative), Z (Zero), C (Carry)",
      notes := s2l "Subtracts memory from accumulator and sets flags, but does not store result." }),
   (s2l "INC",
    { mnemonic := s2l "INC", description := s2l "Increment Memory or Accumulator",
      modes := s2l "Accumulator, Direct Page, Absolute, Indexed X",
      cycles := s2l "2-8 depending on mode", flags := s2l "N (Negative), Z (Zero)",
      notes := s2l "Increments value by 1. Sets N and Z flags based on result." }),
   (s2l "DEC",
    { mnemonic := s2l "DEC", description := s2l "Decrement Memory or Accumulator",
      modes := s2l "Accumulator, Direct Page, Absolute, Indexed X",
      cycles := s2l "2-8 depending on mode", flags := s2l "N (Negative), Z (Zero)",
      notes := s2l "Decrements value by 1. Sets N and Z flags based on result." }),
   (s2l "AND",
    { mnemonic := s2l "AND", description := s2l "Logical AND Accumulator with Memory",
      modes := s2l "Immediate, Direct Page, Absolute, Indexed, Indirect",
      cycles := s2l "2-6 depending on mode", flags := s2l "N (Negative), Z (Zero)",
      notes := s2l "Performs bitwise AND operation between accumulator and memory." }),
   (s2l "ORA",
    { mnemonic := s2l "ORA", description := s2l "Logical OR Accumulator with Memory",
      modes := s2l "Immediate, Direct Page, Absolute, Indexed, Indirect",
      cycles := s2l "2-6 depending on mode", flags := s2l "N (Negative), Z (Zero)",
      notes := s2l "Performs bitwise OR operation between accumulator and memory." }),
   (s2l "REP",
    { mnemonic := s2l "REP", description := s2l "Reset Processor Status Bits",
      modes := s2l "Immediate", cycles := s2l "3",
      flags := s2l "Can affect any flag based on immediate value",
      notes := s2l "65816-specific. Clears bits in status register. Common: REP #$20 (16-bit A), REP #$30 (16-bit A+X/Y)." }),
   (s2l "SEP",
    { mnemonic := s2l "SEP", description := s2l "Set Processor Status Bits",
      modes := s2l "Immediate", cycles := s2l "3",
      flags := s2l "Can affect any flag based on immediate value",
      notes := s2l "65816-specific. Sets bits in status register. Common: SEP #$20 (8-bit A), SEP #$30 (8-bit A+X/Y)." })]

/-- `snes_lookup_instruction` restricted to its mnemonic argument, the only
form the pipeline uses (`mcp_client.py:60-193`). -/
def snes_lookup_instruction (mnemonic : List Char) : Option InstrInfo :=
  instruction_table.lookup (toUpperL mnemonic)

/-- `SNESRAGPipeline.detect_and_explain_instructions` (`neo4j_rag.py:257-297`):
find whole-word mnemonics in the uppercased prompt, deduplicate, cap at 5,
resolve each, silently dropping unresolved ones.  Python's `list(set(...))`
order is hash-dependent; modelled in first-occurrence order. -/
def detect_and_explain_instructions (user_prompt : List Char) : List InstrInfo :=
  if ¬ MCP_AVAILABLE then []
  else
    let instructions := find_mnemonics none (toUpperL user_prompt)
    if instructions = [] then []
    else ((dedupF instructions).take 5).filterMap snes_lookup_instruction

/-- `re.findall` of `\$([0-9A-Fa-f]{4,6})\b` (`neo4j_rag.py:313-314`): at each
`$`, the greedy quantifier can only end the match at the end of the maximal
hex-digit run (any shorter cut is followed by a hex digit, breaking `\b`), so
the run matches exactly when its length is 4-6 and a word boundary follows.
A matched run contains no `$`, so resuming one character after the `$` is
equivalent to the regex engine's resume-after-match. -/
def find_addresses : List Char → List (List Char)
  | [] => []
  | c :: rest =>
    if c = '$' then
      let run := rest.takeWhile isHexDigit
      if 4 ≤ run.length ∧ run.length ≤ 6 ∧ afterBoundary (rest.drop run.length) then
        run :: find_addresses rest
      else find_addresses rest
    else find_addresses rest

/-- One memory-map answer of `snes_memory_map` (`mcp_client.py:196-343`); the
dictionaries returned by the different branches have slightly different keys,
modelled with `Option` fields defaulting to `none` for absent keys. -/
structure AddrInfo where
  address : List Char
  description : List Char
  region : List Char
  type : List Char
  access : List Char
  name : Option (List Char) := none
  category : Option (List Char) := none
  size : Option (List Char) := none
  note : Option (List Char) := none
deriving DecidableEq

/-- The PPU register dictionary (`mcp_client.py:238-247`); every entry has
category `ppu` and access `Write`. -/
def ppu_registers : List (Nat × (List Char × List Char)) :=
  [(0x2100, (s2l "INIDISP", s2l "Screen Display Register - Controls brightness and forced blank")),
   (0x2101, (s2l "OBJSEL", s2l "Object Size and Character Size Register")),
   (0x2102, (s2l "OAMADDL", s2l "OAM Address Register (low byte)")),
   (0x2103, (s2l "OAMADDH", s2l "OAM Address Register (high byte)")),
   (0x2104, (s2l "OAMDATA", s2l "OAM Data Write Register")),
   (0x2105, (s2l "BGMODE", s2l "BG Mode and Character Size Register")),
   (0x2106, (s2l "MOSAIC", s2l "Mosaic Register")),
   (0x2107, (s2l "BG1SC", s2l "BG1 Screen Base and Size"))]

/-- The CPU/DMA/IRQ register dictionary (`mcp_client.py:271-279`); every entry
has category `cpu`, and the found-entry branch hardcodes access `Write`. -/
def cpu_registers : List (Nat × (List Char × List Char)) :=
  [(0x4200, (s2l "NMITIMEN", s2l "Interrupt Enable Flags - Controls NMI, IRQ, and auto-joypad")),
   (0x4201, (s2l "WRIO", s2l "I/O Port Write Register")),
   (0x4202, (s2l "WRMPYA", s2l "Multiplicand A (8-bit)")),
   (0x4203, (s2l "WRMPYB", s2l "Multiplicand B (8-bit)")),
   (0x4204, (s2l "WRDIVL", s2l "Dividend (low byte)")),
   (0x4205, (s2l "WRDIVH", s2l "Dividend (high byte)")),
   (0x4206, (s2l "WRDIVB", s2l "Divisor (8-bit)"))]

/-- Python `s.replace('0x', '')`: remove the non-overlapping occurrences of
`0x`, scanning left to right (`mcp_client.py:222`). -/
def remove0x : List Char → List Char
  | [] => []
  | [c] => [c]
  | c1 :: c2 :: rest =>
    if c1 = '0' ∧ c2 = 'x' then remove0x rest
    else c1 :: remove0x (c2 :: rest)

/-- The LoROM bank prefixes of `mcp_client.py:325-326`. -/
def rom_banks : List (List Char) :=
  [s2l "80", s2l "81", s2l "82", s2l "83", s2l "84", s2l "85", s2l "86", s2l "87",
   s2l "88", s2l "89", s2l "8A", s2l "8B", s2l "8C", s2l "8D", s2l "8E", s2l "8F"]

/-- The region dictionary `snes_memory_map` builds for a normalised (hex,
uppercase, 4- or 6-digit) address (`mcp_client.py:224-343`). -/
def mem_region_answer (addr : List Char) : AddrInfo :=
  let addr_val := if addr.length = 4 then hexVal addr else hexVal (addr.drop 2)
  (
      if 0x2100 ≤ addr_val ∧ addr_val ≤ 0x21FF then
        match ppu_registers.lookup addr_val with
        | some nd =>
          { address := '$' :: addr, name := some nd.1, description := nd.2,
            region := s2l "Hardware Registers", type := s2l "I/O",
            category := some (s2l "ppu"), access := s2l "Write" }
        | none =>
          { address := '$' :: addr, region := s2l "PPU Registers", type := s2l "I/O",
            description := s2l "Picture Processing Unit hardware registers",
            access := s2l "Read/Write (varies by register)" }
      else if 0x4200 ≤ addr_val ∧ addr_val ≤ 0x44FF then
        match cpu_registers.lookup addr_val with
        | some nd =>
          { address := '$' :: addr, name := some nd.1, description := nd.2,
            region := s2l "Hardware Registers", type := s2l "I/O",
            category := some (s2l "cpu"), access := s2l "Write" }
        | none =>
          { address := '$' :: addr, region := s2l "CPU/DMA Registers", type := s2l "I/O",
            description := s2l "CPU control and DMA hardware registers",
            access := s2l "Read/Write (varies by register)" }
      else if addr.length = 6 ∧ addr.take 2 = s2l "7E" then
        { address := '$' :: addr, region := s2l "WRAM (Work RAM)", type := s2l "RAM",
          description := s2l "General purpose work RAM. Zelda 3 stores game state, player data, and temporary variables here.",
          access := s2l "Read/Write", size := some (s2l "128 KB total (banks $7E-$7F)") }
      else if addr.length = 6 ∧ addr.take 2 = s2l "7F" then
        { address := '$' :: addr, region := s2l "WRAM (Work RAM)", type := s2l "RAM",
          description := s2l "Extended work RAM (second 64KB of WRAM)",
          access := s2l "Read/Write", size := some (s2l "128 KB total (banks $7E-$7F)") }
      else if addr.length = 6 ∧ addr.take 2 ∈ rom_banks then
        { address := '$' :: addr, region := s2l "ROM (LoROM mapping)", type := s2l "ROM",
          description := s2l "Game code and data in ROM. Read-only.",
          access := s2l "Read-only",
          note := some (s2l "Banks $80-$FF mirror $00-$7F with ROM mapped") }
      else
        { address := '$' :: addr, region := s2l "Unknown", type := s2l "Unknown",
          description := s2l "Memory region not identified", access := s2l "Unknown" })

/-- `snes_memory_map` restricted to its `address` argument, the only form the
pipeline uses (`mcp_client.py:196-343`).  The address is normalised by
stripping `$` and `0x` and uppercasing; only 4- and 6-digit addresses parse
(a 6-digit address keeps its low 16 bits as `addr_val`, computed inside
`mem_region_answer`); every parsed address resolves to some region
dictionary, with an `Unknown` fallback. -/
def snes_memory_map (address : List Char) : Option AddrInfo :=
  let addr := toUpperL (remove0x (address.filter (fun c => c ≠ '$')))
  if addr.length = 4 ∨ addr.length = 6 then some (mem_region_answer addr)
  else none

/-- `SNESRAGPipeline.detect_and_explain_addresses` (`neo4j_rag.py:299-329`):
find `$`-prefixed hex literals, deduplicate, cap at 10, resolve each through
`snes_memory_map`, silently dropping unresolved ones.  Python's
`list(set(...))` order is hash-dependent; modelled in first-occurrence order. -/
def detect_and_explain_addresses (user_prompt : List Char) : List AddrInfo :=
  if ¬ MCP_AVAILABLE then []
  else
    let addresses := find_addresses user_prompt
    if addresses = [] then []
    else ((dedupF addresses).take 10).filterMap (fun a => snes_memory_map ('$' :: a))

example : find_addresses (s2l "what is $2100 and $12345?") = [s2l "2100", s2l "12345"] := by decide
example : (detect_and_explain_addresses (s2l "$2100")).length = 1 := by decide
example : (detect_and_explain_instructions (s2l "use LDA and STA here")).length = 3 := by decide
example : detect_and_explain_addresses (s2l "$12345") = [] := by decide

/-! ## Context assembly (`SNESRAGPipeline.build_context`, `neo4j_rag.py:400-549`) -/

/-- The mod records of the reranked list, in rank order (`neo4j_rag.py:459`). -/
def ranked_mods (ranked : List Candidate) : List ModRec :=
  ranked.filterMap (fun c => match c with | .mod m => some m | _ => none)

/-- The register records of the reranked list (`neo4j_rag.py:460`). -/
def ranked_registers (ranked : List Candidate) : List RegisterRec :=
  ranked.filterMap (fun c => match c with | .register r => some r | _ => none)

/-- The component records of the reranked list (`neo4j_rag.py:461`). -/
def ranked_components (ranked : List Candidate) : List ComponentRec :=
  ranked.filterMap (fun c => match c with | .component r => some r | _ => none)

/-- The knowledge records of the reranked list (`neo4j_rag.py:462`). -/
def ranked_knowledge (ranked : List Candidate) : List KnowledgeRec :=
  ranked.filterMap (fun c => match c with | .knowledge r => some r | _ => none)

/-- One formatted mod line (`neo4j_rag.py:469-474`). -/
def format_mod (m : ModRec) : List Char :=
  let components_str :=
    if m.components ≠ [] then strJoin (s2l ", ") m.components else s2l "N/A"
  s2l "  - **" ++ m.name ++ s2l "** (" ++ m.type ++ s2l "): " ++ m.description ++
  s2l "\n    Affects: " ++ components_str ++ s2l " | Bytes changed: " ++ natStr m.bytes

/-- One formatted register line (`neo4j_rag.py:479-482`). -/
def format_register (r : RegisterRec) : List Char :=
  s2l "  - **" ++ r.address ++ s2l " (" ++ r.name ++ s2l ")**: " ++ r.description

/-- One formatted component line (`neo4j_rag.py:487-490`). -/
def format_component (c : ComponentRec) : List Char :=
  s2l "  - **" ++ c.name ++ s2l "** (" ++ c.type ++ s2l "): " ++ c.description

/-- One formatted knowledge line, content truncated at 200 characters with a
trailing ellipsis (`neo4j_rag.py:495-498`). -/
def format_knowledge (k : KnowledgeRec) : List Char :=
  let content :=
    if 200 < k.content.length then k.content.take 200 ++ s2l "..." else k.content
  s2l "  - **" ++ k.topic ++ s2l "**: " ++ content

/-- The lines appended for one detected instruction (`neo4j_rag.py:507-513`);
the notes line is emitted only when `notes` is non-empty (Python truthiness
of `instr.get('notes')`). -/
def format_instr (i : InstrInfo) : List (List Char) :=
  [s2l "\n**" ++ i.mnemonic ++ s2l "**: " ++ i.description,
   s2l "  - Modes: " ++ i.modes,
   s2l "  - Cycles: " ++ i.cycles,
   s2l "  - Flags: " ++ i.flags] ++
  (if i.notes ≠ [] then [s2l "  - Notes: " ++ i.notes] else [])

/-- The lines appended for one detected address (`neo4j_rag.py:519-529`);
the register form is used when the `name` key is present and truthy. -/
def format_addr (a : AddrInfo) : List (List Char) :=
  match a.name with
  | some nm =>
    if nm ≠ [] then
      [s2l "\n**" ++ a.address ++ s2l "** - " ++ nm,
       s2l "  " ++ a.description,
       s2l "  Type: " ++ a.type ++ s2l ", Access: " ++ a.access]
    else
      [s2l "\n**" ++ a.address ++ s2l "** - " ++ a.region,
       s2l "  " ++ a.description,
       s2l "  Type: " ++ a.type ++ s2l ", Access: " ++ a.access]
  | none =>
    [s2l "\n**" ++ a.address ++ s2l "** - " ++ a.region,
     s2l "  " ++ a.description,
     s2l "  Type: " ++ a.type ++ s2l ", Access: " ++ a.access]

/-- The `context_parts` list assembled in `neo4j_rag.py:464-529`: per-family
sections (with their per-family caps), then the MCP enrichment sections. -/
def context_parts (ranked : List Candidate) (query : List Char) : List (List Char) :=
  (let mods := ranked_mods ranked
   if mods ≠ [] then s2l "🎮 **Relevant Mods:**" :: (mods.take 3).map format_mod
   else []) ++
  (let registers := ranked_registers ranked
   if registers ≠ [] then
     s2l "\n🔧 **Relevant SNES Registers:**" :: (registers.take 5).map format_register
   else []) ++
  (let components := ranked_components ranked
   if components ≠ [] then
     s2l "\n📦 **Relevant Components:**" :: (components.take 3).map format_component
   else []) ++
  (let knowledge := ranked_knowledge ranked
   if knowledge ≠ [] then
     s2l "\n📚 **Domain Knowledge:**" :: (knowledge.take 2).map format_knowledge
   else []) ++
  (if MCP_AVAILABLE then
     (let instruction_help := detect_and_explain_instructions query
      if instruction_help ≠ [] then
        s2l "\n🔧 **Detected 65816 Instructions:**" ::
          (instruction_help.map format_instr).flatten
      else []) ++
     (let address_info := detect_and_explain_addresses query
      if address_info ≠ [] then
        s2l "\n📍 **Memory Addresses Referenced:**" ::
          (address_info.map format_addr).flatten
      else [])
   else [])

/-- The fixed banner line (`neo4j_rag.py:535`). -/
def header_line : List Char :=
  s2l "🧠 **Enhanced Knowledge Context** (Neo4j + MCP Servers):"

/-- The footer line (`neo4j_rag.py:537-547`): reports the reranked item count
and, when either detector fired, the enrichment count. -/
def footer_line (enrichment_count : Nat) (query : List Char) : List Char :=
  if MCP_AVAILABLE then
    let instruction_count := (detect_and_explain_instructions query).length
    let address_count := (detect_and_explain_addresses query).length
    if 0 < instruction_count ∨ 0 < address_count then
      s2l "\n_Retrieved " ++ natStr enrichment_count ++ s2l " items from Neo4j + " ++
        natStr (instruction_count + address_count) ++ s2l " MCP enrichments_"
    else
      s2l "\n_Retrieved and reranked " ++ natStr enrichment_count ++
        s2l " most relevant items from knowledge graph_"
  else
    s2l "\n_Retrieved and reranked " ++ natStr enrichment_count ++
      s2l " most relevant items from knowledge graph_"

/-- `SNESRAGPipeline.build_context` (`neo4j_rag.py:400-549`).  `.error` models
an uncaught exception escaping the call; `.ok` is its return value. -/
def build_context (query : List Char) (s : Store) (max_items : Nat := 10) :
    Except Unit (List Char) :=
  if ¬ s.available then .ok []
  else
    let keywords := extract_keywords query
    if keywords = [] then .ok []
    else
      match get_relevant_mods keywords s with
      | .error e => .error e
      | .ok mods =>
      match get_relevant_registers keywords s with
      | .error e => .error e
      | .ok registers =>
      match get_relevant_components keywords s with
      | .error e => .error e
      | .ok components =>
      match get_relevant_knowledge keywords s with
      | .error e => .error e
      | .ok knowledge =>
        let all_items :=
          mods.map Candidate.mod ++ registers.map Candidate.register ++
          components.map Candidate.component ++ knowledge.map Candidate.knowledge
        if all_items = [] then .ok []
        else
          let ranked_items := rerank_results all_items query keywords max_items
          if ranked_items = [] then .ok []
          else
            let parts := context_parts ranked_items query
            if parts = [] then .ok []
            else .ok (joinNL (header_line :: parts ++ [footer_line ranked_items.length query]))

/-- `get_rag_context` (`neo4j_rag.py:590-613`): the hook entry point; its
`try/except` converts any exception into `None`, and an empty context is also
reported as `None`. -/
def get_rag_context (query : List Char) (s : Store) : Option (List Char) :=
  if ¬ s.available then none
  else
    match build_context query s 10 with
    | .error _ => none
    | .ok context => if context ≠ [] then some context else none

/-! ## Properties of the positional bonus -/

/-- The positional bonus only takes the values 0, 2, 3. -/
theorem position_bonus_cases (text : List Char) (kws : List (List Char)) :
    position_bonus text kws = 0 ∨ position_bonus text kws = 2 ∨
      position_bonus text kws = 3 := by
  induction kws with
  | nil => exact Or.inl rfl
  | cons kw rest ih =>
    simp only [position_bonus]
    split_ifs with h1 h2 h3
    · exact Or.inr (Or.inr rfl)
    · exact Or.inr (Or.inl rfl)
    · exact ih
    · exact ih

/-- The positional bonus is at most 3. -/
theorem position_bonus_le_3 (text : List Char) (kws : List (List Char)) :
    position_bonus text kws ≤ 3 := by
  rcases position_bonus_cases text kws with h | h | h <;> omega

/-- The positional bonus is positive exactly when some keyword occurs in the
text with first occurrence before index 100. -/
theorem position_bonus_pos_iff (text : List Char) (kws : List (List Char)) :
    0 < position_bonus text kws ↔
      ∃ kw ∈ kws, kw <:+: text ∧ firstIdx kw text < 100 := by
  induction kws with
  | nil => simp [position_bonus]
  | cons kw rest ih =>
    simp only [position_bonus]
    split_ifs with h1 h2 h3
    · exact iff_of_true (by omega) ⟨kw, List.mem_cons_self kw rest, h1, by omega⟩
    · exact iff_of_true (by omega) ⟨kw, List.mem_cons_self kw rest, h1, h3⟩
    · rw [ih]
      constructor
      · rintro ⟨k, hk, hi, hp⟩
        exact ⟨k, List.mem_cons_of_mem kw hk, hi, hp⟩
      · rintro ⟨k, hk, hi, hp⟩
        rcases List.mem_cons.mp hk with rfl | hk
        · exact absurd hp h3
        · exact ⟨k, hk, hi, hp⟩
    · rw [ih]
      constructor
      · rintro ⟨k, hk, hi, hp⟩
        exact ⟨k, List.mem_cons_of_mem kw hk, hi, hp⟩
      · rintro ⟨k, hk, hi, hp⟩
        rcases List.mem_cons.mp hk with rfl | hk
        · exact absurd hi h1
        · exact ⟨k, hk, hi, hp⟩

/-- When the positional bonus is 3, some keyword occurs before index 50. -/
theorem position_bonus_eq_3_imp (text : List Char) (kws : List (List Char)) :
    position_bonus text kws = 3 →
      ∃ kw ∈ kws, kw <:+: text ∧ firstIdx kw text < 50 := by
  induction kws with
  | nil => intro h; exact absurd h (by simp [position_bonus])
  | cons kw rest ih =>
    simp only [position_bonus]
    split_ifs with h1 h2 h3
    · intro _; exact ⟨kw, List.mem_cons_self kw rest, h1, h2⟩
    · omega
    · intro h
      obtain ⟨k, hk, hi, hp⟩ := ih h
      exact ⟨k, List.mem_cons_of_mem kw hk, hi, hp⟩
    · intro h
      obtain ⟨k, hk, hi, hp⟩ := ih h
      exact ⟨k, List.mem_cons_of_mem kw hk, hi, hp⟩

/-- The positional bonus of the specification (§4.3 of the spec / claim C4):
`+3` if some keyword's first occurrence index is below 50, else `+2` if some
keyword's first occurrence index is below 100, else 0.  Modelled from the
spec's words for comparison with the implementation's `position_bonus`. -/
def spec_position_bonus (text : List Char) (kws : List (List Char)) : Nat :=
  if ∃ kw ∈ kws, kw <:+: text ∧ firstIdx kw text < 50 then 3
  else if ∃ kw ∈ kws, kw <:+: text ∧ firstIdx kw text < 100 then 2
  else 0

/-- The relevance score as claim C4 states it; modelled from the spec's words
(keyword-hit bonus, exact-query bonus, existential positional tiers, richness
bonus) for comparison with `calculate_relevance_score`. -/
def spec_relevance_score (item : Candidate) (query : List Char)
    (keywords : List (List Char)) : Nat :=
  let text := searchable_text item
  min (2 * keywords.countP (fun kw => kw <:+: text)) 10
  + (if toLowerL query <:+: text then 5 else 0)
  + spec_position_bonus text keywords
  + (if 100 < text.length then 2 else if 50 < text.length then 1 else 0)

/-- The implementation's positional bonus never exceeds the spec's, and they
vanish together. -/
theorem position_bonus_vs_spec (text : List Char) (kws : List (List Char)) :
    position_bonus text kws ≤ spec_position_bonus text kws ∧
      (position_bonus text kws = 0 ↔ spec_position_bonus text kws = 0) := by
  have hpos := position_bonus_pos_iff text kws
  have hcases := position_bonus_cases text kws
  by_cases h50 : ∃ kw ∈ kws, kw <:+: text ∧ firstIdx kw text < 50
  · have hs : spec_position_bonus text kws = 3 := by
      unfold spec_position_bonus
      rw [if_pos h50]
    have hp3 : 0 < position_bonus text kws := by
      obtain ⟨k, hk, hi, hp⟩ := h50
      refine hpos.mpr ⟨k, hk, hi, ?_⟩
      omega
    rw [hs]
    refine ⟨by rcases hcases with h | h | h <;> omega, ?_⟩
    constructor
    · intro h0; omega
    · intro h3; omega
  · by_cases h100 : ∃ kw ∈ kws, kw <:+: text ∧ firstIdx kw text < 100
    · have hs : spec_position_bonus text kws = 2 := by
        unfold spec_position_bonus
        rw [if_neg h50, if_pos h100]
      have hp2 : 0 < position_bonus text kws := hpos.mpr h100
      have hne3 : position_bonus text kws ≠ 3 := by
        intro h3
        exact h50 (position_bonus_eq_3_imp text kws h3)
      rw [hs]
      refine ⟨by rcases hcases with h | h | h <;> omega, ?_⟩
      constructor
      · intro h0; omega
      · intro h2; omega
    · have hs : spec_position_bonus text kws = 0 := by
        unfold spec_position_bonus
        rw [if_neg h50, if_neg h100]
      have hp0 : position_bonus text kws = 0 := by
        by_contra hne
        exact h100 (hpos.mp (by omega))
      rw [hs, hp0]
      exact ⟨Nat.le_refl 0, Iff.rfl⟩

/-- C4 (amended): the keyword-hit, exact-query and richness factors are as the
claim states them, but the positional bonus is the order-dependent scan
`position_bonus`, which never exceeds the claim's existential tier bonus and
vanishes exactly when the claim's bonus does. -/
theorem calculate_relevance_score_decomposed (item : Candidate) (query : List Char)
    (keywords : List (List Char)) :
    calculate_relevance_score item query keywords
        + spec_position_bonus (searchable_text item) keywords
      = spec_relevance_score item query keywords
        + position_bonus (searchable_text item) keywords ∧
    position_bonus (searchable_text item) keywords
      ≤ spec_position_bonus (searchable_text item) keywords ∧
    (position_bonus (searchable_text item) keywords = 0 ↔
      spec_position_bonus (searchable_text item) keywords = 0) := by
  refine ⟨?_, (position_bonus_vs_spec _ _).1, (position_bonus_vs_spec _ _).2⟩
  simp only [calculate_relevance_score, spec_relevance_score, Nat.mul_comm]
  omega

/-- C4 (counterexample data): an item whose searchable text contains `speed`
at index 5 and `magic` at index 60. -/
def itemX : Candidate :=
  Candidate.component
    { name := s2l "xxxxxspeedqqqqqqqqqqqqqqqqqqqqqqqqqqqqqqqqqqqqqqqqqqqqqqqqmagic",
      type := s2l "", description := s2l "", file := s2l "" }

set_option maxRecDepth 4000 in
/-- C4 (counterexample): with keyword iteration order `[magic, speed]`, the
implementation stops at `magic` (index 60, `+2`) although `speed` occurs at
index 5, where the claim's formula awards `+3`: the code scores 7, the claim's
formula scores 8. -/
theorem calculate_relevance_score_ne_spec :
    calculate_relevance_score itemX (s2l "zzz") [s2l "magic", s2l "speed"] = 7 ∧
    spec_relevance_score itemX (s2l "zzz") [s2l "magic", s2l "speed"] = 8 ∧
    calculate_relevance_score itemX (s2l "zzz") [s2l "magic", s2l "speed"] ≠
      spec_relevance_score itemX (s2l "zzz") [s2l "magic", s2l "speed"] := by
  refine ⟨by decide, by decide, by decide⟩

/-- C10: the relevance score always lies in the interval `[0, 20]`
(at most 10 + 5 + 3 + 2). -/
theorem calculate_relevance_score_bounds (item : Candidate) (query : List Char)
    (keywords : List (List Char)) :
    0 ≤ calculate_relevance_score item query keywords ∧
      calculate_relevance_score item query keywords ≤ 20 := by
  refine ⟨Nat.zero_le _, ?_⟩
  have hpb := position_bonus_le_3 (searchable_text item) keywords
  simp only [calculate_relevance_score]
  have hmin : min ((keywords.countP fun kw => kw <:+: searchable_text item) * 2) 10 ≤ 10 :=
    Nat.min_le_right _ _
  split_ifs <;> omega

/-- C7 (amended): under a permutation of the keyword list (two iteration
orders of the same keyword set) the keyword-hit, exact-query and richness
factors are unchanged, so the two scores differ by at most the positional
bonus, which is at most 3. -/
theorem calculate_relevance_score_perm (item : Candidate) (query : List Char)
    (kws₁ kws₂ : List (List Char)) (h : kws₁.Perm kws₂) :
    calculate_relevance_score item query kws₁ ≤
      calculate_relevance_score item query kws₂ + 3 ∧
    calculate_relevance_score item query kws₂ ≤
      calculate_relevance_score item query kws₁ + 3 := by
  have hc := h.countP_eq (fun kw => kw <:+: searchable_text item)
  have h1 := position_bonus_le_3 (searchable_text item) kws₁
  have h2 := position_bonus_le_3 (searchable_text item) kws₂
  simp only [calculate_relevance_score, hc]
  split_ifs <;> omega

/-- C7 (witness for the amended claim): the bound applied to two orders of the
two-keyword set of the counterexample. -/
theorem calculate_relevance_score_perm_witness :
    calculate_relevance_score itemX (s2l "zzz") [s2l "magic", s2l "speed"] ≤
      calculate_relevance_score itemX (s2l "zzz") [s2l "speed", s2l "magic"] + 3 ∧
    calculate_relevance_score itemX (s2l "zzz") [s2l "speed", s2l "magic"] ≤
      calculate_relevance_score itemX (s2l "zzz") [s2l "magic", s2l "speed"] + 3 :=
  calculate_relevance_score_perm itemX (s2l "zzz") _ _
    (List.Perm.swap (s2l "speed") (s2l "magic") [])

set_option maxRecDepth 4000 in
/-- C7 (counterexample): the same keyword set traversed in two different
iteration orders (as Python's hash-randomised `set` iteration may do across
processes) yields different relevance scores for the same item and query, so
the score is not a function of the keyword set alone. -/
theorem calculate_relevance_score_order_dependent :
    ([s2l "magic", s2l "speed"] : List (List Char)).Perm [s2l "speed", s2l "magic"] ∧
    calculate_relevance_score itemX (s2l "zzz") [s2l "magic", s2l "speed"] ≠
      calculate_relevance_score itemX (s2l "zzz") [s2l "speed", s2l "magic"] := by
  constructor
  · exact List.Perm.swap (s2l "speed") (s2l "magic") []
  · decide

/-! ## Properties of the stable descending sort used by `rerank_results` -/

/-- Inserting permutes: `insertBy le x l` is `x :: l` up to order. -/
theorem insertBy_perm {α} (le : α → α → Bool) (x : α) (l : List α) :
    (insertBy le x l).Perm (x :: l) := by
  induction l with
  | nil => exact List.Perm.refl _
  | cons y ys ih =>
    simp only [insertBy]
    by_cases hle : le x y
    · rw [if_pos hle]
    · rw [if_neg hle]
      exact (ih.cons y).trans (List.Perm.swap x y ys)

/-- Sorting permutes. -/
theorem sortBy_perm {α} (le : α → α → Bool) (l : List α) :
    (sortBy le l).Perm l := by
  induction l with
  | nil => exact List.Perm.refl _
  | cons x xs ih =>
    simp only [sortBy]
    exact ((insertBy_perm le x (sortBy le xs)).trans (ih.cons x))

/-- Inserting into a list sorted by descending score keeps it sorted. -/
theorem insertBy_pairwise (x : Nat × Candidate) (l : List (Nat × Candidate))
    (h : l.Pairwise (fun a b => b.1 ≤ a.1)) :
    (insertBy scoreDescLe x l).Pairwise (fun a b => b.1 ≤ a.1) := by
  induction l with
  | nil => simp [insertBy]
  | cons y ys ih =>
    rcases List.pairwise_cons.mp h with ⟨hy, hys⟩
    simp only [insertBy]
    by_cases hle : scoreDescLe x y
    · rw [if_pos hle]
      have hxy : y.1 ≤ x.1 := by simpa [scoreDescLe, Nat.ble_eq] using hle
      refine List.pairwise_cons.mpr ⟨?_, h⟩
      intro z hz
      rcases List.mem_cons.mp hz with rfl | hz
      · exact hxy
      · exact le_trans (hy z hz) hxy
    · rw [if_neg hle]
      have hxy : x.1 ≤ y.1 := by
        have hnb : ¬ y.1 ≤ x.1 := by simpa [scoreDescLe, Nat.ble_eq] using hle
        omega
      refine List.pairwise_cons.mpr ⟨?_, ih hys⟩
      intro z hz
      rcases List.mem_cons.mp ((insertBy_perm scoreDescLe x ys).mem_iff.mp hz) with rfl | hz
      · exact hxy
      · exact hy z hz

/-- The sort produces a descending-score list. -/
theorem sortBy_pairwise (l : List (Nat × Candidate)) :
    (sortBy scoreDescLe l).Pairwise (fun a b => b.1 ≤ a.1) := by
  induction l with
  | nil => simp [sortBy]
  | cons x xs ih =>
    simp only [sortBy]
    exact insertBy_pairwise x (sortBy scoreDescLe xs) ih

/-- Stability of the insertion, phrased per score value: inserting `x` does
not disturb the relative order of the elements of any fixed score, and puts
`x` in front of the later elements of its own score. -/
theorem insertBy_filter_eq (x : Nat × Candidate) (v : Nat)
    (l : List (Nat × Candidate)) :
    (insertBy scoreDescLe x l).filter (fun p => p.1 = v)
      = ((x :: l).filter (fun p => p.1 = v)) := by
  induction l with
  | nil => rfl
  | cons y ys ih =>
    simp only [insertBy]
    by_cases hle : scoreDescLe x y
    · rw [if_pos hle]
    · rw [if_neg hle]
      have hgt : x.1 < y.1 := by
        have hnb : ¬ y.1 ≤ x.1 := by simpa [scoreDescLe, Nat.ble_eq] using hle
        omega
      by_cases hy : y.1 = v
      · have hx : ¬ x.1 = v := by omega
        simp [List.filter_cons, hy, hx, ih]
      · by_cases hx : x.1 = v
        · simp [List.filter_cons, hy, hx, ih]
        · simp [List.filter_cons, hy, hx, ih]

/-- Stability of the sort, phrased per score value: for every score `v`, the
elements of score `v` appear in the sorted list exactly in their original
relative order. -/
theorem sortBy_filter_eq (v : Nat) (l : List (Nat × Candidate)) :
    (sortBy scoreDescLe l).filter (fun p => p.1 = v)
      = l.filter (fun p => p.1 = v) := by
  induction l with
  | nil => rfl
  | cons x xs ih =>
    simp only [sortBy]
    rw [insertBy_filter_eq]
    simp only [List.filter_cons, ih]

/-- C3: `rerank_results` keeps exactly the positively scored candidates
(removing those with score ≤ 0), stable-sorts them by descending score — ties
keep their original merge order, expressed by the per-score filter equations —
and truncates to at most `max_items` entries. -/
theorem rerank_results_spec (all_items : List Candidate) (query : List Char)
    (keywords : List (List Char)) (max_items : Nat) :
    (rerank_results all_items query keywords max_items).length ≤ max_items ∧
    (∀ c ∈ rerank_results all_items query keywords max_items,
        0 < calculate_relevance_score c query keywords) ∧
    ∃ full : List (Nat × Candidate),
      rerank_results all_items query keywords max_items
          = (full.take max_items).map Prod.snd ∧
      full.Perm ((all_items.map
          (fun it => (calculate_relevance_score it query keywords, it))).filter
          (fun p => 0 < p.1)) ∧
      full.Pairwise (fun a b => b.1 ≤ a.1) ∧
      (∀ v, full.filter (fun p => p.1 = v)
          = ((all_items.map
              (fun it => (calculate_relevance_score it query keywords, it))).filter
              (fun p => 0 < p.1)).filter (fun p => p.1 = v)) := by
  refine ⟨?_, ?_, sortBy scoreDescLe ((all_items.map
      (fun it => (calculate_relevance_score it query keywords, it))).filter
      (fun p => 0 < p.1)), rfl, sortBy_perm _ _, sortBy_pairwise _,
      fun v => sortBy_filter_eq v _⟩
  · simp only [rerank_results, List.length_map]
    exact List.length_take_le _ _
  · intro c hc
    simp only [rerank_results] at hc
    obtain ⟨p, hp, rfl⟩ := List.mem_map.mp hc
    have hp1 : p ∈ sortBy scoreDescLe ((all_items.map
        (fun it => (calculate_relevance_score it query keywords, it))).filter
        (fun p => 0 < p.1)) := List.mem_of_mem_take hp
    have hp2 := (sortBy_perm scoreDescLe _).mem_iff.mp hp1
    have hp3 := List.mem_filter.mp hp2
    obtain ⟨it, hit, heq⟩ := List.mem_map.mp hp3.1
    have hps : p.1 = calculate_relevance_score p.2 query keywords := by rw [← heq]
    have hpos : 0 < p.1 := of_decide_eq_true hp3.2
    rw [← hps]
    exact hpos

/-! ## Retrieval bounds and failure behaviour (claims C5, C1) -/

deriving instance DecidableEq for Except

/-- C5 (amended): the register retrieval is capped at 5 in both branches,
and the *fallback* (no inferred filter) mod and component retrievals are
capped at 3; the filtered mod and component retrievals are unbounded
(see the counterexample). -/
theorem retrieval_caps (kws : List (List Char)) (s : Store) :
    (∀ l, get_relevant_registers kws s = .ok l → l.length ≤ 5) ∧
    (mod_types kws = [] → ∀ l, get_relevant_mods kws s = .ok l → l.length ≤ 3) ∧
    (component_names kws = [] → ∀ l, get_relevant_components kws s = .ok l → l.length ≤ 3) := by
  refine ⟨?_, ?_, ?_⟩
  · intro l hl
    unfold get_relevant_registers at hl
    split at hl
    · injection hl with h
      subst h
      simp
    · split at hl
      · exact Except.noConfusion hl
      · split at hl
        · injection hl with h
          subst h
          exact List.length_take_le _ _
        · injection hl with h
          subst h
          exact List.length_take_le _ _
  · intro hm l hl
    unfold get_relevant_mods at hl
    split at hl
    · injection hl with h
      subst h
      simp
    · split at hl
      · exact Except.noConfusion hl
      · rw [if_neg (by simp [hm])] at hl
        injection hl with h
        subst h
        exact List.length_take_le _ _
  · intro hm l hl
    unfold get_relevant_components at hl
    split at hl
    · injection hl with h
      subst h
      simp
    · split at hl
      · exact Except.noConfusion hl
      · rw [if_neg (by simp [hm])] at hl
        injection hl with h
        subst h
        exact List.length_take_le _ _

/-- An available store holding no records and no failure flags. -/
def storeEmptyAvail : Store :=
  { available := true, mods := [], registers := [], components := [], knowledge := [],
    modsFail := false, registersFail := false, componentsFail := false,
    knowledgeFail := false }

/-- C5 (witness): the caps applied to the empty keyword set over the empty
available store. -/
theorem retrieval_caps_witness :
    ([] : List RegisterRec).length ≤ 5 ∧ ([] : List ModRec).length ≤ 3 :=
  ⟨(retrieval_caps [] storeEmptyAvail).1 [] rfl,
   (retrieval_caps [] storeEmptyAvail).2.1 rfl [] rfl⟩

/-- A store holding six mods of type `magic`. -/
def store6 : Store :=
  { available := true,
    mods :=
      [{ name := s2l "m1", description := s2l "", type := s2l "magic", bytes := 1, components := [] },
       { name := s2l "m2", description := s2l "", type := s2l "magic", bytes := 2, components := [] },
       { name := s2l "m3", description := s2l "", type := s2l "magic", bytes := 3, components := [] },
       { name := s2l "m4", description := s2l "", type := s2l "magic", bytes := 4, components := [] },
       { name := s2l "m5", description := s2l "", type := s2l "magic", bytes := 5, components := [] },
       { name := s2l "m6", description := s2l "", type := s2l "magic", bytes := 6, components := [] }],
    registers := [], components := [], knowledge := [],
    modsFail := false, registersFail := false, componentsFail := false,
    knowledgeFail := false }

/-- C5 (counterexample): with the inferred filter `magic`, the mod retrieval
returns all six matching records — the filtered query has no `LIMIT`, so the
claimed cap of 5 filtered records is violated. -/
theorem get_relevant_mods_unbounded :
    mod_types [s2l "magic"] ≠ [] ∧
    get_relevant_mods [s2l "magic"] store6 = .ok store6.mods ∧
    store6.mods.length = 6 := ⟨by decide, by decide, by decide⟩

/-- A store with an available driver whose mods query fails. -/
def storeFail : Store :=
  { available := true, mods := [], registers := [], components := [], knowledge := [],
    modsFail := true, registersFail := false, componentsFail := false,
    knowledgeFail := false }

/-- C1 (amended): when the store is unavailable every per-family retrieval
returns the empty sequence and `build_context` returns `""` without raising;
and any exception escaping `build_context` is caught at the `get_rag_context`
entry point, which returns `None`. -/
theorem build_context_unavailable (q : List Char) (kws : List (List Char)) (s : Store) :
    (s.available = false →
      get_relevant_mods kws s = .ok [] ∧
      get_relevant_registers kws s = .ok [] ∧
      get_relevant_components kws s = .ok [] ∧
      get_relevant_knowledge kws s = .ok [] ∧
      ∀ n, build_context q s n = .ok []) ∧
    (∀ e, build_context q s 10 = .error e → get_rag_context q s = none) := by
  constructor
  · intro h
    have hna : ¬ s.available := by simp [h]
    refine ⟨?_, ?_, ?_, ?_, ?_⟩ <;>
      simp [get_relevant_mods, get_relevant_registers, get_relevant_components,
        get_relevant_knowledge, build_context, hna]
  · intro e he
    unfold get_rag_context
    split
    · rfl
    · rw [he]

/-- An unavailable store (no driver). -/
def storeUnavail : Store :=
  { available := false, mods := [], registers := [], components := [], knowledge := [],
    modsFail := false, registersFail := false, componentsFail := false,
    knowledgeFail := false }

/-- C1 (witness): the amended claim at the unavailable store. -/
theorem build_context_unavailable_witness :
    build_context (s2l "magic") storeUnavail 10 = .ok [] :=
  ((build_context_unavailable (s2l "magic") [] storeUnavail).1 rfl).2.2.2.2 10

/-- C1 (counterexample): on an available store whose mods query fails, the
exception escapes `build_context` — it does not degrade to an empty sequence,
so `build_context` does not satisfy the claimed never-raises contract. -/
theorem build_context_propagates_error :
    storeFail.available = true ∧
    build_context (s2l "magic") storeFail 10 = .error () := ⟨rfl, by decide⟩

/-! ## Keyword extraction (claims C6, C9) -/

/-- Elements of `dedupFAux seen l` come from `l`. -/
theorem dedupFAux_subset {α} [DecidableEq α] (l : List α) :
    ∀ (seen : List α) (x : α), x ∈ dedupFAux seen l → x ∈ l := by
  induction l with
  | nil => intro seen x hx; exact absurd hx (by simp [dedupFAux])
  | cons y ys ih =>
    intro seen x hx
    unfold dedupFAux at hx
    split at hx
    · exact List.mem_cons_of_mem y (ih seen x hx)
    · rcases List.mem_cons.mp hx with rfl | hx
      · exact List.mem_cons_self x ys
      · exact List.mem_cons_of_mem y (ih (y :: seen) x hx)

/-- Elements of `dedupF l` come from `l`. -/
theorem dedupF_subset {α} [DecidableEq α] {l : List α} {x : α}
    (h : x ∈ dedupF l) : x ∈ l := dedupFAux_subset l [] x h

/-- C6: a query in which no vocabulary phrase occurs (case-insensitively) as a
substring yields an empty keyword set, and `build_context` then returns `""`
for every store and every `max_items`. -/
theorem build_context_no_keywords (q : List Char) (s : Store) (n : Nat)
    (h : ∀ p ∈ all_keywords, ¬ (p <:+: toLowerL q)) :
    extract_keywords q = [] ∧ build_context q s n = .ok [] := by
  have hfil : all_keywords.filter (fun kw => kw <:+: toLowerL q) = [] := by
    rw [List.filter_eq_nil_iff]
    intro p hp
    simpa using h p hp
  have hex : extract_keywords q = [] := by
    show dedupF ((all_keywords.filter
      (fun kw => kw <:+: toLowerL q)).map normalize_keyword) = []
    rw [hfil]
    rfl
  refine ⟨hex, ?_⟩
  unfold build_context
  split
  · rfl
  · rw [hex]
    rfl

/-- C6 (witness): the spec's own scenario query `hello world`. -/
theorem build_context_no_keywords_witness :
    extract_keywords (s2l "hello world") = [] ∧
    build_context (s2l "hello world") storeFail 10 = .ok [] :=
  build_context_no_keywords (s2l "hello world") storeFail 10 (by decide)

/-- C9: every extracted keyword token has no uppercase character, no space and
no `$`, and is the normalisation of some phrase of the fixed vocabulary, hence
lies in the fixed finite token set `all_keywords.map normalize_keyword`. -/
theorem extract_keywords_normalized (q : List Char) (kw : List Char)
    (h : kw ∈ extract_keywords q) :
    (∀ c ∈ kw, ¬ c.isUpper) ∧ ' ' ∉ kw ∧ '$' ∉ kw ∧
    kw ∈ all_keywords.map normalize_keyword := by
  have hmem : kw ∈ (all_keywords.filter
      (fun k => k <:+: toLowerL q)).map normalize_keyword := dedupF_subset h
  have hmem2 : kw ∈ all_keywords.map normalize_keyword := by
    obtain ⟨p, hp, rfl⟩ := List.mem_map.mp hmem
    exact List.mem_map.mpr ⟨p, List.mem_of_mem_filter hp, rfl⟩
  have hfact : ∀ k ∈ all_keywords.map normalize_keyword,
      (∀ c ∈ k, ¬ c.isUpper) ∧ ' ' ∉ k ∧ '$' ∉ k := by decide
  obtain ⟨h1, h2, h3⟩ := hfact kw hmem2
  exact ⟨h1, h2, h3, hmem2⟩

/-- C9 (witness): the token `magic` extracted from a mixed-case query. -/
theorem extract_keywords_normalized_witness :
    (∀ c ∈ s2l "magic", ¬ c.isUpper) ∧ ' ' ∉ s2l "magic" ∧ '$' ∉ s2l "magic" ∧
    s2l "magic" ∈ all_keywords.map normalize_keyword :=
  extract_keywords_normalized (s2l "Magic please") (s2l "magic") (by decide)

/-! ## The address detector (claim C8) -/

/-- Every match of the address scanner is a hex run of length 4 to 6. -/
theorem find_addresses_wf (t : List Char) :
    ∀ a ∈ find_addresses t,
      4 ≤ a.length ∧ a.length ≤ 6 ∧ ∀ c ∈ a, isHexDigit c := by
  induction t with
  | nil => intro a ha; exact absurd ha (by simp [find_addresses])
  | cons c rest ih =>
    intro a ha
    unfold find_addresses at ha
    split at ha
    · have ha' : a ∈ (if 4 ≤ (rest.takeWhile isHexDigit).length ∧
          (rest.takeWhile isHexDigit).length ≤ 6 ∧
          afterBoundary (rest.drop (rest.takeWhile isHexDigit).length) = true
        then rest.takeWhile isHexDigit :: find_addresses rest
        else find_addresses rest) := ha
      split at ha'
      · rename_i hcond
        rcases List.mem_cons.mp ha' with rfl | ha2
        · refine ⟨hcond.1, hcond.2.1, ?_⟩
          intro ch hch
          exact List.mem_takeWhile_imp hch
        · exact ih a ha2
      · exact ih a ha'
    · exact ih a ha

/-- `dedupFAux seen l` has no duplicates and avoids `seen`. -/
theorem dedupFAux_nodup {α} [DecidableEq α] (l : List α) :
    ∀ seen : List α,
      (dedupFAux seen l).Nodup ∧ ∀ x ∈ dedupFAux seen l, x ∉ seen := by
  induction l with
  | nil => intro seen; exact ⟨List.nodup_nil, by simp [dedupFAux]⟩
  | cons y ys ih =>
    intro seen
    unfold dedupFAux
    split
    · exact ih seen
    · rename_i hy
      obtain ⟨hnd, havoid⟩ := ih (y :: seen)
      constructor
      · refine List.nodup_cons.mpr ⟨?_, hnd⟩
        intro hmem
        exact havoid y hmem (List.mem_cons_self y seen)
      · intro x hx
        rcases List.mem_cons.mp hx with rfl | hx
        · exact hy
        · intro hxs
          exact havoid x hx (List.mem_cons_of_mem y hxs)

/-- `dedupF` produces a duplicate-free list. -/
theorem dedupF_nodup {α} [DecidableEq α] (l : List α) : (dedupF l).Nodup :=
  (dedupFAux_nodup l []).1

/-- A hex-digit list is untouched by the `0x`-stripping (it contains no `x`). -/
theorem remove0x_of_hex : ∀ l : List Char, (∀ c ∈ l, isHexDigit c) → remove0x l = l
  | [], _ => rfl
  | [_], _ => rfl
  | c1 :: c2 :: rest, h => by
    unfold remove0x
    rw [if_neg]
    · rw [remove0x_of_hex (c2 :: rest) (fun x hx => h x (List.mem_cons_of_mem c1 hx))]
    · rintro ⟨rfl, rfl⟩
      exact absurd (h 'x' (by simp)) (by decide)

/-- On a pure hex run, `snes_memory_map ('$' :: a)` normalises back to the
uppercased run and resolves exactly when the run has 4 or 6 digits. -/
theorem snes_memory_map_hex (a : List Char) (h : ∀ c ∈ a, isHexDigit c) :
    snes_memory_map ('$' :: a) =
      (if a.length = 4 ∨ a.length = 6
       then some (mem_region_answer (toUpperL a)) else none) := by
  have hfa : ('$' :: a).filter (fun c => c ≠ '$') = a := by
    rw [List.filter_cons_of_neg (by decide)]
    refine List.filter_eq_self.mpr ?_
    intro c hc
    have hhex := h c hc
    simp only [decide_eq_true_eq]
    intro hceq
    subst hceq
    exact absurd hhex (by decide)
  have hr : remove0x a = a := remove0x_of_hex a h
  have hlen : (toUpperL a).length = a.length := by simp [toUpperL]
  simp only [snes_memory_map, hfa, hr, hlen]

/-- C8 (amended): every match of the address detector is a `$`-prefixed hex
literal of 4 **to** 6 digits (5-digit literals are matched too, see the
counterexample); the matches are deduplicated and capped at 10 before
resolution; the memory-map lookup resolves every 4- or 6-digit match and no
5-digit match, and unresolved addresses are silently dropped. -/
theorem detect_addresses_spec (prompt : List Char) :
    (∀ a ∈ find_addresses prompt,
        4 ≤ a.length ∧ a.length ≤ 6 ∧ ∀ c ∈ a, isHexDigit c) ∧
    (dedupF (find_addresses prompt)).Nodup ∧
    (detect_and_explain_addresses prompt).length ≤ 10 ∧
    (∀ a ∈ find_addresses prompt,
        (a.length = 5 → snes_memory_map ('$' :: a) = none) ∧
        (a.length ≠ 5 → (snes_memory_map ('$' :: a)).isSome)) := by
  refine ⟨find_addresses_wf prompt, dedupF_nodup _, ?_, ?_⟩
  · unfold detect_and_explain_addresses
    split
    · simp
    · have hb : (if find_addresses prompt = [] then ([] : List AddrInfo)
          else List.filterMap (fun a => snes_memory_map ('$' :: a))
            (List.take 10 (dedupF (find_addresses prompt)))).length ≤ 10 := by
        split
        · simp
        · refine le_trans (List.length_filterMap_le _ _) ?_
          exact List.length_take_le _ _
      exact hb
  · intro a ha
    obtain ⟨h4, h6, hhex⟩ := find_addresses_wf prompt a ha
    have heq := snes_memory_map_hex a hhex
    constructor
    · intro h5
      rw [heq, if_neg (by omega)]
    · intro h5
      rw [heq, if_pos (by omega)]
      rfl

/-- C8 (witness for the amended claim): a matched 5-digit literal resolves to
nothing and is dropped, while the matched `2100` resolves. -/
theorem detect_addresses_spec_witness :
    snes_memory_map ('$' :: s2l "12345") = none ∧
    (snes_memory_map ('$' :: s2l "2100")).isSome :=
  ⟨((detect_addresses_spec (s2l "$12345")).2.2.2 (s2l "12345") (by decide)).1 (by decide),
   ((detect_addresses_spec (s2l "$2100")).2.2.2 (s2l "2100") (by decide)).2 (by decide)⟩

/-- C8 (counterexample): the regex quantifier is `{4,6}`, so the 5-digit
literal `$12345` is matched by the detector, contradicting the claim's
"exactly ... 4 or 6 digits"; the lookup then resolves it to nothing. -/
theorem find_addresses_five_digit :
    find_addresses (s2l "$12345") = [s2l "12345"] ∧
    (s2l "12345").length = 5 ∧
    detect_and_explain_addresses (s2l "$12345") = [] :=
  ⟨by decide, by decide, by decide⟩

/-! ## Enrichment sections in the assembled context (claim C2) -/

/-- Every element of the joined part list occurs verbatim inside the joined
string. -/
theorem mem_joinNL_infix (x : List Char) (l : List (List Char)) (h : x ∈ l) :
    x <:+: joinNL l := by
  induction l with
  | nil => exact absurd h (List.not_mem_nil x)
  | cons a t ih =>
    rcases List.mem_cons.mp h with rfl | h
    · cases t with
      | nil => exact List.infix_refl x
      | cons b t' =>
        have heq : joinNL (x :: b :: t') = x ++ ['\n'] ++ joinNL (b :: t') := rfl
        rw [heq, List.append_assoc]
        exact (List.prefix_append x _).isInfix
    · cases t with
      | nil => exact absurd h (List.not_mem_nil x)
      | cons b t' =>
        have heq : joinNL (a :: b :: t') = a ++ ['\n'] ++ joinNL (b :: t') := rfl
        rw [heq]
        exact (ih h).trans (List.suffix_append _ _).isInfix

/-- C2 (amended): when `build_context` returns a non-empty context (the store
is available, keywords were found and some retrieved item survived the
rerank), each enrichment section whose detector resolved something appears in
the output; the claim's unconditional form fails because the keyword and
retrieval short-circuits return `""` before the detectors run (see the
counterexample). -/
theorem build_context_enrichment_sections (q : List Char) (s : Store) (n : Nat)
    (out : List Char) (h : build_context q s n = .ok out) (hne : out ≠ []) :
    (detect_and_explain_addresses q ≠ [] →
      (s2l "\n📍 **Memory Addresses Referenced:**") <:+: out) ∧
    (detect_and_explain_instructions q ≠ [] →
      (s2l "\n🔧 **Detected 65816 Instructions:**") <:+: out) := by
  by_cases ha : s.available
  case neg =>
    simp [build_context, ha] at h
    exact absurd h hne
  by_cases hk : extract_keywords q = []
  · simp [build_context, ha, hk] at h
    exact absurd h hne
  rcases hm : get_relevant_mods (extract_keywords q) s with e | mods
  · simp [build_context, ha, hk, hm] at h
  rcases hr : get_relevant_registers (extract_keywords q) s with e | regs
  · simp [build_context, ha, hk, hm, hr] at h
  rcases hc : get_relevant_components (extract_keywords q) s with e | comps
  · simp [build_context, ha, hk, hm, hr, hc] at h
  rcases hn : get_relevant_knowledge (extract_keywords q) s with e | knows
  · simp [build_context, ha, hk, hm, hr, hc, hn] at h
  simp only [build_context, ha, hk, hm, hr, hc, hn] at h
  rw [if_neg (by simp), if_neg (by simp)] at h
  by_cases hall : (List.map Candidate.mod mods ++ List.map Candidate.register regs ++
      List.map Candidate.component comps ++ List.map Candidate.knowledge knows) = []
  · rw [if_pos hall] at h
    injection h with h'
    exact absurd h'.symm hne
  rw [if_neg hall] at h
  by_cases hrank : rerank_results (List.map Candidate.mod mods ++
      List.map Candidate.register regs ++ List.map Candidate.component comps ++
      List.map Candidate.knowledge knows) q (extract_keywords q) n = []
  · rw [if_pos hrank] at h
    injection h with h'
    exact absurd h'.symm hne
  rw [if_neg hrank] at h
  by_cases hparts : context_parts (rerank_results (List.map Candidate.mod mods ++
      List.map Candidate.register regs ++ List.map Candidate.component comps ++
      List.map Candidate.knowledge knows) q (extract_keywords q) n) q = []
  · rw [if_pos hparts] at h
    injection h with h'
    exact absurd h'.symm hne
  rw [if_neg hparts] at h
  injection h with h'
  rw [← h']
  constructor
  · intro haddr
    refine mem_joinNL_infix _ _ ?_
    refine List.mem_cons_of_mem _ (List.mem_append.mpr (Or.inl ?_))
    unfold context_parts
    refine List.mem_append.mpr (Or.inr ?_)
    rw [if_pos (show MCP_AVAILABLE = true from rfl)]
    refine List.mem_append.mpr (Or.inr ?_)
    show (s2l "\n📍 **Memory Addresses Referenced:**") ∈
      (if detect_and_explain_addresses q ≠ [] then
        s2l "\n📍 **Memory Addresses Referenced:**" ::
          ((detect_and_explain_addresses q).map format_addr).flatten
      else [])
    rw [if_pos haddr]
    exact List.mem_cons_self _ _
  · intro hinstr
    refine mem_joinNL_infix _ _ ?_
    refine List.mem_cons_of_mem _ (List.mem_append.mpr (Or.inl ?_))
    unfold context_parts
    refine List.mem_append.mpr (Or.inr ?_)
    rw [if_pos (show MCP_AVAILABLE = true from rfl)]
    refine List.mem_append.mpr (Or.inl ?_)
    show (s2l "\n🔧 **Detected 65816 Instructions:**") ∈
      (if detect_and_explain_instructions q ≠ [] then
        s2l "\n🔧 **Detected 65816 Instructions:**" ::
          ((detect_and_explain_instructions q).map format_instr).flatten
      else [])
    rw [if_pos hinstr]
    exact List.mem_cons_self _ _

/-- A store holding one PPU register whose searchable text mentions `2100`. -/
def storeW : Store :=
  { available := true, mods := [],
    registers := [{ address := s2l "$2100", name := s2l "INIDISP 2100",
                    description := s2l "Screen display register for brightness",
                    category := s2l "ppu" }],
    components := [], knowledge := [],
    modsFail := false, registersFail := false, componentsFail := false,
    knowledgeFail := false }

/-- The context `build_context` produces for the query `$2100` on `storeW`. -/
def outW : List Char := ((build_context (s2l "$2100") storeW 10).toOption).getD []

set_option maxRecDepth 8000 in
/-- C2 (witness): on `storeW` the query `$2100` produces a non-empty context
that contains the memory-address enrichment section. -/
theorem build_context_enrichment_sections_witness :
    (s2l "\n📍 **Memory Addresses Referenced:**") <:+: outW :=
  (build_context_enrichment_sections (s2l "$2100") storeW 10 outW rfl
    (by decide)).1 (by decide)

/-- C2 (counterexample): for the query `$2100` on an available store with no
records, the address detector resolves `$2100`, yet `build_context` returns
`""` — the keyword/retrieval short-circuits run before the detectors — so the
output contains no memory-address enrichment section. -/
theorem build_context_enrichment_dropped :
    detect_and_explain_addresses (s2l "$2100") ≠ [] ∧
    build_context (s2l "$2100") storeEmptyAvail 10 = .ok [] ∧
    ¬ (s2l "\n📍 **Memory Addresses Referenced:**") <:+: ([] : List Char) :=
  ⟨by decide, by decide, by decide⟩

set_option maxRecDepth 4000 in
/-- C3 (witness): the rerank specification applied to a singleton candidate
list that survives the filter. -/
theorem rerank_results_spec_witness :
    0 < calculate_relevance_score itemX (s2l "zzz") [s2l "magic"] :=
  (rerank_results_spec [itemX] (s2l "zzz") [s2l "magic"] 10).2.1 itemX (by decide)
